import Mathlib

/-!
Verification of the block lifecycle and accumulation contracts of
`prose/_blocks/imutils.py`: the Stack, StackStd, SavePhots and CleanCosmics
blocks.  Pixel planes and photometric arrays are embedded as rational-valued
functions; numpy's in-place mutation of shared arrays is made explicit by a
small heap of planes addressed by indices.
-/

namespace Prose

/-- A 2-D pixel array (a numpy image plane), as a rational-valued function of
pixel coordinates.  Shapes are uniform across one run, so bounds are left
implicit. -/
def Plane : Type := ℕ → ℕ → ℚ

/-- The all-zero plane, used as the out-of-range default for heap lookups. -/
def planeZero : Plane := fun _ _ => 0

/-- Element-wise numpy addition of two equally shaped planes. -/
def planeAdd (p q : Plane) : Plane := fun x y => p x y + q x y

/-- Element-wise numpy division of a plane by a frame count. -/
def planeDiv (p : Plane) (n : ℕ) : Plane := fun x y => p x y / n

/-- An n-dimensional numpy array: a shape together with a value at every index
list (indices beyond the shape are irrelevant to the claims). -/
structure NDArray where
  shape : List ℕ
  val : List ℕ → ℚ

/-- Move the element of a list found at position `src` to position `dst`,
keeping the relative order of the others (the axis permutation performed by
`np.moveaxis`).  Out-of-range `src` leaves the list unchanged; callers guard
ranges separately. -/
def listMove (src dst : ℕ) (l : List α) : List α :=
  match l.get? src with
  | none => l
  | some x => List.insertIdx dst x (l.eraseIdx src)

/-- Embedding of `np.moveaxis(a, src, dst)` for a single source/destination
axis pair: both axes are normalized against the rank and an `AxisError` is
raised when either is out of bounds; otherwise the source axis is moved to the
destination position and values are re-indexed accordingly. -/
def moveaxis (a : NDArray) (src dst : ℕ) : Except String NDArray :=
  if src < a.shape.length ∧ dst < a.shape.length then
    .ok ⟨listMove src dst a.shape, fun ix => a.val (listMove dst src ix)⟩
  else
    .error "AxisError"

/-- The flux re-layout performed by `SavePhots.terminate`
(imutils.py lines 232-239) on the collected flux array, and identically on the
collected flux-error array: `np.moveaxis(fluxes, 1, 0)` then
`np.moveaxis(fluxes, 2, 1)`, followed by the rank-2 promotion
`fluxes = np.array([fluxes])` guarded by `len(fluxes.shape) == 2`. -/
def savePhotsFluxSection (fluxes : NDArray) : Except String NDArray :=
  match moveaxis fluxes 1 0 with
  | .error e => .error e
  | .ok f1 =>
    match moveaxis f1 2 1 with
    | .error e => .error e
    | .ok f2 =>
      if f2.shape.length = 2 then .ok ⟨1 :: f2.shape, fun ix => f2.val ix.tail⟩
      else .ok f2

/-- A rank-3 collected flux array of shape [frame = 2, star = 3, aperture = 4]
whose entries encode their own index, used to exercise the flux re-layout on a
concrete input. -/
def fluxesFSA : NDArray :=
  ⟨[2, 3, 4], fun ix => ((100 * ix.getD 0 0 + 10 * ix.getD 1 0 + ix.getD 2 0 : ℕ) : ℚ)⟩

/-- A rank-2 collected flux array of shape [frame = 2, star = 3]: the
degenerate single-aperture case in which each image carries a flat per-star
flux vector. -/
def fluxesFS : NDArray :=
  ⟨[2, 3], fun ix => ((10 * ix.getD 0 0 + ix.getD 1 0 : ℕ) : ℚ)⟩

/-- A FITS header: an association list from keyword to value.  Membership
(`keyword in header`) is lookup success and subscripting a missing keyword
raises `KeyError`. -/
abbrev Header := List (String × ℚ)

/-- The telescope keyword mapping consumed by `SavePhots.terminate`: the
instrument-specific header key names for exposure time, Julian date, seeing,
right ascension and declination. -/
structure Telescope where
  keyword_exposure_time : String
  keyword_julian_date : String
  keyword_seeing : String
  keyword_ra : String
  keyword_dec : String

/-- Python `str.lower()` on the ASCII keyword strings involved. -/
def strLower (s : String) : String := ⟨s.data.map Char.toLower⟩

/-- The keyword list iterated by `SavePhots.terminate` (lines 243-257): eight
fixed names followed by the five telescope-specific keys. -/
def recognizedKeywords (t : Telescope) : List String :=
  ["sky", "fwhm", "fwhmx", "fwhmy", "psf_angle", "dx", "dy", "airmass",
   t.keyword_exposure_time, t.keyword_julian_date, t.keyword_seeing,
   t.keyword_ra, t.keyword_dec]

/-- The inner loop of `SavePhots.terminate` (lines 258-261): append
`image.header[keyword]` for every collected image in order, raising `KeyError`
at the first image whose header lacks the keyword. -/
def collectKeyword (imgs : List Header) (kw : String) : Except String (List ℚ) :=
  match imgs with
  | [] => .ok []
  | h :: rest =>
    match h.lookup kw with
    | none => .error "KeyError"
    | some v => (collectKeyword rest kw).map (fun vs => v :: vs)

/-- Assignment `data[key] = value` on a Python dict kept as an ordered
association list: an existing key keeps its position and gets the new value, a
new key is appended. -/
def dictInsert (d : List (String × List ℚ)) (k : String) (v : List ℚ) :
    List (String × List ℚ) :=
  if (d.lookup k).isSome then d.map (fun p => if p.1 = k then (k, v) else p)
  else d ++ [(k, v)]

/-- The keyword loop of `SavePhots.terminate` (lines 243-263): for each
recognized keyword, if it is present in the first collected image's header,
collect it from every image and store the series under the lower-cased
keyword; keywords absent from the first image's header are skipped. -/
def buildMetaLoop (first : Header) (imgs : List Header)
    (d : List (String × List ℚ)) : List String → Except String (List (String × List ℚ))
  | [] => .ok d
  | kw :: rest =>
    if (first.lookup kw).isSome then
      match collectKeyword imgs kw with
      | .error e => .error e
      | .ok vals => buildMetaLoop first imgs (dictInsert d (strLower kw) vals) rest
    else buildMetaLoop first imgs d rest

/-- The per-frame metadata table assembled by `SavePhots.terminate`: the
keyword loop run over the recognized keywords, with `self.images[0]` as the
governing first image (an empty collection would already have failed at line
228 with an index error). -/
def buildMetaTable (t : Telescope) (imgs : List Header) :
    Except String (List (String × List ℚ)) :=
  match imgs with
  | [] => .error "IndexError"
  | first :: _ => buildMetaLoop first imgs [] (recognizedKeywords t)

/-- The state of a running `Stack` block together with the heap of pixel
arrays it can reach: numpy arrays are heap objects addressed by index, and
`self.stack` holds either nothing or a reference to such an object, because
`self.stack = image.data` (line 49) binds the first image's array itself
rather than a copy. -/
structure StackState where
  heap : List Plane
  stack : Option ℕ

/-- One `Stack.run(image)` call (lines 47-52) for the image whose data array
lives at heap index `img`: the first call captures a reference to that array;
every later call executes the in-place `self.stack += image.data`, mutating
the referenced array. -/
def stackRun (s : StackState) (img : ℕ) : StackState :=
  match s.stack with
  | none => ⟨s.heap, some img⟩
  | some r =>
    ⟨s.heap.set r (planeAdd (s.heap.getD r planeZero) (s.heap.getD img planeZero)),
     some r⟩

/-- The pipeline driver feeding every image to `Stack.run` in file order. -/
def stackRunAll (s : StackState) (imgs : List ℕ) : StackState :=
  imgs.foldl stackRun s

/-- The accumulator part of `Stack.terminate` (line 59): the in-place division
`self.stack /= len(files)`, returning the final heap and the array that is
written out (`None` if no image was ever run, where Python would raise). -/
def stackTerminate (s : StackState) (n : ℕ) : StackState × Option Plane :=
  match s.stack with
  | none => (s, none)
  | some r =>
    let p := planeDiv (s.heap.getD r planeZero) n
    (⟨s.heap.set r p, some r⟩, some p)

/-- The element-wise arithmetic mean of a list of planes. -/
def meanPlane (ps : List Plane) : Plane :=
  fun x y => ((ps.map (fun p => p x y)).sum) / ps.length

/-- A concrete two-image dataset: the first image's pixels are all 1, the
second image's pixels are all 2. -/
def examplePlanes : List Plane := [fun _ _ => 1, fun _ _ => 2]

/-- The flip-transition index list of `Stack.terminate` (lines 65-67):
`[idx for idx, (i, j) in enumerate(zip(flip, flip[1:]), 1) if i != j]`. -/
def changingFlipIdxs (flips : List Bool) : List ℕ :=
  (((flips.zip flips.tail).enumFrom 1).filter fun p => p.2.1 != p.2.2).map Prod.fst

/-- The FLIPTIME header field of `Stack.terminate` (lines 69-70): absent when
no flip transition exists, otherwise the Julian date at the first transition
index. -/
def flipTime (flips : List Bool) (jd : List ℚ) : Option ℚ :=
  match changingFlipIdxs flips with
  | [] => none
  | k :: _ => some (jd.getD k 0)

/-- The claim's notion of a flip transition at index k: the flip state at k
differs from the flip state at k - 1 (k ranging over 1 .. length - 1). -/
abbrev transitionAt (flips : List Bool) (k : ℕ) : Prop :=
  1 ≤ k ∧ k < flips.length ∧ flips.getD (k - 1) false ≠ flips.getD k false

/-- Recursive form of the flip-transition index list, starting the index count
at `k`; used to reason about `changingFlipIdxs` by structural induction. -/
def transitionsFrom : ℕ → List Bool → List ℕ
  | k, a :: b :: rest => (if a ≠ b then [k] else []) ++ transitionsFrom (k + 1) (b :: rest)
  | _, _ => []

/-- The dataset context consumed by `CleanCosmics.initialize`: whether a stack
artifact is registered, its data if so, and the named side files present in
the dataset folder. -/
structure CCContext where
  hasStack : Bool
  stackData : Plane
  folderFiles : List (String × Plane)

/-- The state of a `CleanCosmics` block after `initialize`. -/
structure CleanCosmicsState where
  stack_data : Option Plane
  std_stack : Plane
  threshold : ℚ

/-- CleanCosmics.initialize (lines 313-316): the mean-stack is loaded only if
the dataset has a registered stack (otherwise `stack_data` silently stays
`None`), while the fixed-name side file `test_std.fits` is loaded
unconditionally, raising a file-not-found error when absent. -/
def cleanCosmicsInit (threshold : ℚ) (ctx : CCContext) : Except String CleanCosmicsState :=
  let sd := if ctx.hasStack then some ctx.stackData else none
  match ctx.folderFiles.lookup "test_std.fits" with
  | none => .error "FileNotFoundError"
  | some std => .ok ⟨sd, std, threshold⟩

/-- CleanCosmics.run (lines 318-320): mask the pixels whose value exceeds
`stack_data + std_stack * threshold` and replace them by the stack value;
dereferencing an unset `stack_data` (Python `None + array`) raises a type
error. -/
def cleanCosmicsRun (st : CleanCosmicsState) (data : Plane) : Except String Plane :=
  match st.stack_data with
  | none => .error "TypeError"
  | some sd =>
    .ok fun x y =>
      if data x y > sd x y + st.std_stack x y * st.threshold then sd x y else data x y

/-- A dataset context with no registered stack but with the std side file
present. -/
def ctxNoStack : CCContext := ⟨false, planeZero, [("test_std.fits", planeZero)]⟩

/-- A filesystem: destination paths mapped to written contents. -/
structure FS (α : Type) where
  entries : List (String × α)

/-- Whether a destination path already exists on the filesystem. -/
def FS.pathExists (fs : FS α) (p : String) : Bool := (fs.entries.lookup p).isSome

/-- Modelled from the spec: the `writeto(self.destination,
overwrite=self.overwrite)` call ending Stack.terminate (line 73),
StackStd.terminate (line 102) and SavePhots.terminate (line 288).  The
overwrite policy of the external FITS writer is specified as: when the
destination exists and overwrite is disabled, fail with a destination-conflict
error and write nothing; otherwise write the content at the destination. -/
def writeto (fs : FS α) (dest : String) (content : α) (overwrite : Bool) :
    Except String Unit × FS α :=
  if fs.pathExists dest ∧ overwrite = false then (.error "DestinationConflict", fs)
  else (.ok (), ⟨(dest, content) :: fs.entries⟩)

/-- Stack.terminate down to its filesystem write: divide the accumulator and
hand the resulting plane to `writeto` with the block's stored destination and
overwrite flag. -/
def stackTerminateWrite (s : StackState) (n : ℕ) (dest : String) (overwrite : Bool)
    (fs : FS Plane) : Except String Unit × FS Plane :=
  match (stackTerminate s n).2 with
  | none => (.error "TypeError", fs)
  | some p => writeto fs dest p overwrite

/-- StackStd.terminate down to its filesystem write: the per-pixel standard
deviation `stack_std` computed at line 99 (its numerical content is outside
claim scope and passed in as-is) handed to `writeto` with the stored
destination and overwrite flag. -/
def stackStdTerminateWrite (stack_std : Plane) (dest : String) (overwrite : Bool)
    (fs : FS Plane) : Except String Unit × FS Plane :=
  writeto fs dest stack_std overwrite

/-- SavePhots.terminate down to its filesystem write: the flux re-layout and
the metadata table are assembled in source order, any of their errors
propagates without touching the filesystem, and on success the assembled
content is handed to `writeto` with the stored destination and overwrite
flag. -/
def savePhotsTerminateWrite (fluxes : NDArray) (t : Telescope) (imgs : List Header)
    (dest : String) (overwrite : Bool)
    (fs : FS (NDArray × List (String × List ℚ))) :
    Except String Unit × FS (NDArray × List (String × List ℚ)) :=
  match savePhotsFluxSection fluxes with
  | .error e => (.error e, fs)
  | .ok fx =>
    match buildMetaTable t imgs with
    | .error e => (.error e, fs)
    | .ok tbl => writeto fs dest (fx, tbl) overwrite

/-- A concrete telescope keyword mapping used by witnesses. -/
def t0 : Telescope := ⟨"EXPTIME", "JD", "SEEING", "RA", "DEC"⟩

/-- A first image header carrying the sky value and the Julian date. -/
def hdrA : Header := [("sky", 1), ("JD", 5)]

/-- A later image header that additionally carries fwhm, which the
first-frame-governs policy must ignore. -/
def hdrB : Header := [("sky", 2), ("JD", 6), ("fwhm", 3)]

/-- C1 counterexample: for the concrete collected array of shape
[frame = 2, star = 3, aperture = 4], the flux section written by terminate has
shape [3, 4, 2] = [star, aperture, frame], not [4, 3, 2] =
[aperture, star, frame] as the claim states. -/
theorem savePhots_flux_claim_counterexample :
    fluxesFSA.shape = [2, 3, 4]
    ∧ (savePhotsFluxSection fluxesFSA).toOption.map NDArray.shape = some [3, 4, 2]
    ∧ [3, 4, 2] ≠ [4, 3, 2] := by
  refine ⟨rfl, ?_, by decide⟩
  rfl

/-- C1 amended: for every rank-3 collected array of shape
[frame, star, aperture], the flux section written by terminate succeeds and
has shape [star, aperture, frame], with `output[s, a, f] = input[f, s, a]` at
all indices; terminate applies the identical re-layout to the flux-error
array (lines 233 and 235). -/
theorem savePhots_flux_reorder (x : NDArray) (F S A : ℕ) (hx : x.shape = [F, S, A]) :
    ∃ out, savePhotsFluxSection x = .ok out ∧ out.shape = [S, A, F]
      ∧ ∀ s a f, out.val [s, a, f] = x.val [f, s, a] := by
  obtain ⟨sh, v⟩ := x
  simp only [NDArray.shape] at hx
  subst hx
  exact ⟨_, rfl, rfl, fun s a f => rfl⟩

/-- Witness for the amended C1 theorem at the concrete [2, 3, 4] input. -/
theorem savePhots_flux_reorder_witness :
    ∃ out, savePhotsFluxSection fluxesFSA = .ok out ∧ out.shape = [3, 4, 2]
      ∧ ∀ s a f, out.val [s, a, f] = fluxesFSA.val [f, s, a] :=
  savePhots_flux_reorder fluxesFSA 2 3 4 rfl

/-- C2: on the degenerate rank-2 collected flux array of shape [frame, star],
terminate raises AxisError inside the second `np.moveaxis` call (source axis 2
is out of bounds for a 2-D array) before the rank-2 promotion guard at line
237 can run, so no section of shape [1, star, frame] is ever produced. -/
theorem savePhots_flux_rank2_crashes :
    fluxesFS.shape = [2, 3]
    ∧ savePhotsFluxSection fluxesFS = .error "AxisError" := ⟨rfl, rfl⟩

/-- C4 counterexample: on a dataset with no registered stack image but with
the std side file present, CleanCosmics.initialize succeeds (instead of
failing as the claim states), silently leaving `stack_data` unset, and any
later run call then raises a type error. -/
theorem cleanCosmics_init_counterexample :
    ctxNoStack.hasStack = false
    ∧ cleanCosmicsInit 2 ctxNoStack = .ok ⟨none, planeZero, 2⟩
    ∧ cleanCosmicsRun ⟨none, planeZero, 2⟩ planeZero = .error "TypeError" :=
  ⟨rfl, rfl, rfl⟩

/-- C4 amended: CleanCosmics.initialize fails at initialize time when the
fixed-name std side file is absent; but when the dataset merely has no
registered stack image, initialize succeeds with `stack_data` left unset and
it is every subsequent run call that fails. -/
theorem cleanCosmics_init_policy (thr : ℚ) (ctx : CCContext) :
    (ctx.folderFiles.lookup "test_std.fits" = none →
      cleanCosmicsInit thr ctx = .error "FileNotFoundError")
    ∧ (∀ std, ctx.folderFiles.lookup "test_std.fits" = some std → ctx.hasStack = false →
        cleanCosmicsInit thr ctx = .ok ⟨none, std, thr⟩
        ∧ ∀ img, cleanCosmicsRun ⟨none, std, thr⟩ img = .error "TypeError") := by
  constructor
  · intro h
    simp [cleanCosmicsInit, h]
  · intro std h hns
    refine ⟨?_, fun img => rfl⟩
    simp [cleanCosmicsInit, h, hns]

/-- Witness for the amended C4 theorem: a folder without the std file makes
initialize fail, and a no-stack context makes initialize succeed while run
fails. -/
theorem cleanCosmics_init_policy_witness :
    (cleanCosmicsInit 2 ⟨false, planeZero, []⟩ = .error "FileNotFoundError")
    ∧ (cleanCosmicsInit 2 ctxNoStack = .ok ⟨none, planeZero, 2⟩
        ∧ ∀ img, cleanCosmicsRun ⟨none, planeZero, 2⟩ img = .error "TypeError") :=
  ⟨(cleanCosmics_init_policy 2 ⟨false, planeZero, []⟩).1 rfl,
   (cleanCosmics_init_policy 2 ctxNoStack).2 planeZero rfl rfl⟩

/-- C8: with the stack mean loaded, CleanCosmics.run succeeds and, at every
pixel whose input value strictly exceeds `stack_mean + threshold * stack_std`,
the output equals the stack mean at that pixel, while every other pixel is
unchanged. -/
theorem cleanCosmics_run_despike (st : CleanCosmicsState) (sd img : Plane)
    (hsd : st.stack_data = some sd) :
    ∃ out, cleanCosmicsRun st img = .ok out ∧ ∀ x y,
      (img x y > sd x y + st.threshold * st.std_stack x y → out x y = sd x y)
      ∧ (¬ img x y > sd x y + st.threshold * st.std_stack x y → out x y = img x y) := by
  obtain ⟨sdo, std, thr⟩ := st
  simp only at hsd
  subst hsd
  refine ⟨_, rfl, fun x y => ⟨fun h => ?_, fun h => ?_⟩⟩
  · simp only at h ⊢
    rw [if_pos (by rw [mul_comm] at h; exact h)]
  · simp only at h ⊢
    rw [if_neg (by rw [mul_comm] at h; exact h)]

/-- Witness for C8 at a concrete state and image: stack mean 0, stack std 1,
threshold 2, constant input 10. -/
theorem cleanCosmics_run_despike_witness :
    ∃ out, cleanCosmicsRun ⟨some planeZero, (fun _ _ => 1), 2⟩ (fun _ _ => 10) = .ok out
      ∧ ∀ x y,
        ((fun (_ _ : ℕ) => (10 : ℚ)) x y >
            planeZero x y + 2 * (fun (_ _ : ℕ) => (1 : ℚ)) x y →
          out x y = planeZero x y)
        ∧ (¬ (fun (_ _ : ℕ) => (10 : ℚ)) x y >
            planeZero x y + 2 * (fun (_ _ : ℕ) => (1 : ℚ)) x y →
          out x y = (fun (_ _ : ℕ) => (10 : ℚ)) x y) :=
  cleanCosmics_run_despike ⟨some planeZero, (fun _ _ => 1), 2⟩ planeZero (fun _ _ => 10) rfl

/-- C7: for every terminal write with overwrite disabled and an existing
destination, terminate fails with a destination-conflict error and the
filesystem is unchanged (no bytes reach the destination); otherwise the write
succeeds — for Stack (with a non-empty accumulator), StackStd, and SavePhots
(whose flux and metadata assembly succeeded). -/
theorem terminate_overwrite_policy
    (s : StackState) (r : ℕ) (hs : s.stack = some r)
    (n : ℕ) (dest : String) (ow : Bool) (fs : FS Plane)
    (fluxes : NDArray) (t : Telescope) (imgs : List Header)
    (hfx : ∃ fx, savePhotsFluxSection fluxes = .ok fx)
    (htb : ∃ tbl, buildMetaTable t imgs = .ok tbl)
    (std : Plane) (fs2 : FS (NDArray × List (String × List ℚ))) :
    ((fs.pathExists dest = true ∧ ow = false) →
        stackTerminateWrite s n dest ow fs = (.error "DestinationConflict", fs)
        ∧ stackStdTerminateWrite std dest ow fs = (.error "DestinationConflict", fs))
    ∧ (¬(fs.pathExists dest = true ∧ ow = false) →
        (stackTerminateWrite s n dest ow fs).1 = .ok ()
        ∧ (stackStdTerminateWrite std dest ow fs).1 = .ok ())
    ∧ ((fs2.pathExists dest = true ∧ ow = false) →
        savePhotsTerminateWrite fluxes t imgs dest ow fs2 = (.error "DestinationConflict", fs2))
    ∧ (¬(fs2.pathExists dest = true ∧ ow = false) →
        (savePhotsTerminateWrite fluxes t imgs dest ow fs2).1 = .ok ()) := by
  obtain ⟨heap, st⟩ := s
  obtain ⟨fx, hfx⟩ := hfx
  obtain ⟨tbl, htb⟩ := htb
  simp only at hs
  subst hs
  refine ⟨fun h => ?_, fun h => ?_, fun h => ?_, fun h => ?_⟩
  · constructor
    · simp [stackTerminateWrite, stackTerminate, writeto, h]
    · simp [stackStdTerminateWrite, writeto, h]
  · constructor
    · simp [stackTerminateWrite, stackTerminate, writeto, h]
    · simp [stackStdTerminateWrite, writeto, h]
  · simp [savePhotsTerminateWrite, hfx, htb, writeto, h]
  · simp [savePhotsTerminateWrite, hfx, htb, writeto, h]

theorem lookup_map_replace (d : List (String × List ℚ)) (k : String) (v : List ℚ)
    (key : String) :
    ((d.map (fun p => if p.1 = k then (k, v) else p)).lookup key).isSome
      = (d.lookup key).isSome := by
  induction d with
  | nil => rfl
  | cons p d ih =>
    obtain ⟨pk, pv⟩ := p
    rw [List.map_cons]
    by_cases hpk : pk = k
    · subst hpk
      rw [if_pos (show (pk, pv).1 = pk from rfl)]
      simp only [List.lookup]
      cases hbe : key == pk <;> simp [hbe, ih]
    · rw [if_neg (show ¬ (pk, pv).1 = k from hpk)]
      simp only [List.lookup]
      cases hbe : key == pk <;> simp [hbe, ih]

theorem lookup_append_single (d : List (String × List ℚ)) (k : String) (v : List ℚ)
    (key : String) :
    ((d ++ [(k, v)]).lookup key).isSome ↔ key = k ∨ (d.lookup key).isSome := by
  induction d with
  | nil =>
    simp only [List.nil_append, List.lookup]
    cases hbe : key == k <;> simp at hbe <;> simp [hbe]
  | cons p d ih =>
    obtain ⟨pk, pv⟩ := p
    simp only [List.cons_append, List.lookup]
    cases hbe : key == pk <;> simp [hbe, ih]

theorem lookup_dictInsert (d : List (String × List ℚ)) (k : String) (v : List ℚ)
    (key : String) :
    ((dictInsert d k v).lookup key).isSome ↔ key = k ∨ (d.lookup key).isSome := by
  unfold dictInsert
  by_cases h : (d.lookup k).isSome
  · rw [if_pos h, lookup_map_replace]
    constructor
    · exact Or.inr
    · rintro (rfl | hk)
      · exact h
      · exact hk
  · rw [if_neg h, lookup_append_single]


theorem buildMetaLoop_ok_lookup (first : Header) (imgs : List Header) :
    ∀ (kws : List String) (d table : List (String × List ℚ)),
      buildMetaLoop first imgs d kws = .ok table →
      ∀ key, ((table.lookup key).isSome ↔ (d.lookup key).isSome
        ∨ ∃ kw ∈ kws, key = strLower kw ∧ (first.lookup kw).isSome) := by
  intro kws
  induction kws with
  | nil =>
    intro d table hok key
    simp only [buildMetaLoop] at hok
    cases hok
    simp
  | cons kw rest ih =>
    intro d table hok key
    simp only [buildMetaLoop] at hok
    by_cases hp : (first.lookup kw).isSome
    · rw [if_pos hp] at hok
      cases hcol : collectKeyword imgs kw with
      | error e => rw [hcol] at hok; exact absurd hok (by simp)
      | ok vals =>
        rw [hcol] at hok
        have := ih _ _ hok key
        rw [this, lookup_dictInsert]
        simp only [List.exists_mem_cons_iff, hp, and_true]
        tauto
    · rw [if_neg hp] at hok
      have := ih _ _ hok key
      rw [this]
      simp only [List.exists_mem_cons_iff]
      have : ¬ (key = strLower kw ∧ (first.lookup kw).isSome = true) := fun h => hp h.2
      tauto

theorem collectKeyword_error_eq (kw : String) :
    ∀ (imgs : List Header) (e : String), collectKeyword imgs kw = .error e → e = "KeyError" := by
  intro imgs
  induction imgs with
  | nil => intro e h; exact absurd h (by simp [collectKeyword])
  | cons h rest ih =>
    intro e hc
    simp only [collectKeyword] at hc
    cases hl : h.lookup kw with
    | none => rw [hl] at hc; cases hc; rfl
    | some v =>
      rw [hl] at hc
      cases hr : collectKeyword rest kw with
      | error e2 =>
        rw [hr] at hc
        simp only [Except.map] at hc
        cases hc
        exact ih _ hr
      | ok vs => rw [hr] at hc; exact absurd hc (by simp [Except.map])

theorem collectKeyword_missing (kw : String) :
    ∀ (imgs : List Header), (∃ h ∈ imgs, h.lookup kw = none) →
      collectKeyword imgs kw = .error "KeyError" := by
  intro imgs
  induction imgs with
  | nil => rintro ⟨h, hm, _⟩; cases hm
  | cons h rest ih =>
    rintro ⟨h2, hm, hmiss⟩
    simp only [collectKeyword]
    cases hl : h.lookup kw with
    | none => rfl
    | some v =>
      rcases List.mem_cons.mp hm with rfl | hm2
      · rw [hl] at hmiss; cases hmiss
      · rw [ih ⟨h2, hm2, hmiss⟩]
        rfl

theorem buildMetaLoop_error (first : Header) (imgs : List Header) :
    ∀ (kws : List String) (d : List (String × List ℚ)),
      (∃ kw ∈ kws, (first.lookup kw).isSome ∧ collectKeyword imgs kw = .error "KeyError") →
      buildMetaLoop first imgs d kws = .error "KeyError" := by
  intro kws
  induction kws with
  | nil => rintro d ⟨kw, hm, _⟩; cases hm
  | cons kw0 rest ih =>
    rintro d ⟨kw, hm, hfirst, hcol⟩
    simp only [buildMetaLoop]
    rcases List.mem_cons.mp hm with rfl | hm2
    · rw [if_pos hfirst, hcol]
    · by_cases hp : (first.lookup kw0).isSome
      · rw [if_pos hp]
        cases hcol0 : collectKeyword imgs kw0 with
        | error e => rw [collectKeyword_error_eq kw0 imgs e hcol0]
        | ok vals => exact ih _ ⟨kw, hm2, hfirst, hcol⟩
      · rw [if_neg hp]
        exact ih _ ⟨kw, hm2, hfirst, hcol⟩


theorem savePhots_meta_first_frame_governs (t : Telescope) (first : Header)
    (rest : List Header) (table : List (String × List ℚ))
    (hnd : ((recognizedKeywords t).map strLower).Nodup)
    (hok : buildMetaTable t (first :: rest) = .ok table) :
    (∀ kw ∈ recognizedKeywords t,
        ((table.lookup (strLower kw)).isSome ↔ (first.lookup kw).isSome))
    ∧ ∀ key, (table.lookup key).isSome →
        ∃ kw ∈ recognizedKeywords t, key = strLower kw ∧ (first.lookup kw).isSome := by
  simp only [buildMetaTable] at hok
  have hchar := buildMetaLoop_ok_lookup first (first :: rest) (recognizedKeywords t) [] table hok
  constructor
  · intro kw hkw
    rw [hchar (strLower kw)]
    simp only [List.lookup_nil, Option.isSome_none, Bool.false_eq_true, false_or]
    constructor
    · rintro ⟨kw2, hkw2, heq, hp⟩
      have heqk : kw = kw2 := List.inj_on_of_nodup_map hnd hkw hkw2 heq
      exact heqk ▸ hp
    · intro hp
      exact ⟨kw, hkw, rfl, hp⟩
  · intro key hkey
    rw [hchar key] at hkey
    simpa using hkey

theorem savePhots_meta_first_frame_witness :
    (∀ kw ∈ recognizedKeywords t0,
        ((([("sky", [(1 : ℚ), 2]), ("jd", [5, 6])] :
            List (String × List ℚ)).lookup (strLower kw)).isSome
          ↔ (hdrA.lookup kw).isSome))
    ∧ ∀ key, (([("sky", [(1 : ℚ), 2]), ("jd", [5, 6])] :
          List (String × List ℚ)).lookup key).isSome →
        ∃ kw ∈ recognizedKeywords t0, key = strLower kw ∧ (hdrA.lookup kw).isSome :=
  savePhots_meta_first_frame_governs t0 hdrA [hdrB] [("sky", [1, 2]), ("jd", [5, 6])]
    (by decide) (by rfl)

theorem savePhots_meta_missing_key_raises (t : Telescope) (first h2 : Header)
    (rest : List Header) (kw : String)
    (hkw : kw ∈ recognizedKeywords t)
    (hfirst : (first.lookup kw).isSome)
    (hmem : h2 ∈ first :: rest) (hmiss : h2.lookup kw = none) :
    buildMetaTable t (first :: rest) = .error "KeyError" := by
  simp only [buildMetaTable]
  exact buildMetaLoop_error first (first :: rest) (recognizedKeywords t) []
    ⟨kw, hkw, hfirst, collectKeyword_missing kw (first :: rest) ⟨h2, hmem, hmiss⟩⟩

theorem savePhots_meta_missing_key_witness :
    buildMetaTable t0 [[("sky", (1 : ℚ))], []] = .error "KeyError" :=
  savePhots_meta_missing_key_raises t0 [("sky", 1)] [] [[]] "sky"
    (by decide) (by decide) (by simp) rfl

theorem changingFlipIdxs_eq (flips : List Bool) :
    changingFlipIdxs flips = transitionsFrom 1 flips := by
  suffices h : ∀ n, (((flips.zip flips.tail).enumFrom n).filter
      fun p => p.2.1 != p.2.2).map Prod.fst = transitionsFrom n flips by
    exact h 1
  induction flips with
  | nil => intro n; rfl
  | cons a tl ih =>
    intro n
    cases tl with
    | nil => rfl
    | cons b rest =>
      have hrec := ih (n + 1)
      simp only [List.tail_cons] at hrec ⊢
      rw [List.zip_cons_cons, List.enumFrom, List.filter_cons]
      by_cases hab : a = b
      · subst hab
        simp [transitionsFrom, hrec]
      · simp [transitionsFrom, hab, hrec]

theorem mem_transitionsFrom (flips : List Bool) :
    ∀ (s k : ℕ), k ∈ transitionsFrom s flips ↔
      ∃ i, k = s + i ∧ i + 1 < flips.length
        ∧ flips.getD i false ≠ flips.getD (i + 1) false := by
  induction flips with
  | nil =>
    intro s k
    simp [transitionsFrom]
  | cons a tl ih =>
    intro s k
    cases tl with
    | nil =>
      rw [show transitionsFrom s [a] = [] from rfl]
      simp only [List.not_mem_nil, false_iff, not_exists]
      rintro i ⟨_, hi, _⟩
      simp only [List.length_cons, List.length_nil] at hi
      omega
    | cons b rest =>
      rw [show transitionsFrom s (a :: b :: rest)
          = (if a ≠ b then [s] else []) ++ transitionsFrom (s + 1) (b :: rest) from rfl]
      rw [List.mem_append, ih (s + 1) k]
      constructor
      · rintro (hk | ⟨i, rfl, hlen, hne⟩)
        · by_cases hab : a = b
          · rw [if_neg (fun hc => hc hab)] at hk
            cases hk
          · rw [if_pos hab] at hk
            rcases List.mem_singleton.mp hk with rfl
            exact ⟨0, by omega, by simp only [List.length_cons]; omega, by simpa using hab⟩
        · exact ⟨i + 1, by omega, by simp only [List.length_cons] at hlen ⊢; omega,
            by simpa using hne⟩
      · rintro ⟨i, rfl, hlen, hne⟩
        cases i with
        | zero =>
          left
          have hab : a ≠ b := by simpa using hne
          rw [if_pos hab]
          simp
        | succ j =>
          right
          refine ⟨j, by omega, ?_, ?_⟩
          · simp only [List.length_cons] at hlen ⊢
            omega
          · simpa using hne

theorem transitionsFrom_ge (flips : List Bool) :
    ∀ (s j : ℕ), j ∈ transitionsFrom s flips → s ≤ j := by
  induction flips with
  | nil => intro s j h; cases h
  | cons a tl ih =>
    intro s j h
    cases tl with
    | nil => cases h
    | cons b rest =>
      rw [show transitionsFrom s (a :: b :: rest)
          = (if a ≠ b then [s] else []) ++ transitionsFrom (s + 1) (b :: rest) from rfl,
        List.mem_append] at h
      rcases h with h | h
      · by_cases hab : a = b
        · rw [if_neg (fun hc => hc hab)] at h
          cases h
        · rw [if_pos hab] at h
          rcases List.mem_singleton.mp h with rfl
          exact le_refl _
      · have := ih (s + 1) j h
        omega

theorem transitionsFrom_head_min (flips : List Bool) :
    ∀ (s k : ℕ) (rest : List ℕ), transitionsFrom s flips = k :: rest →
      ∀ j ∈ transitionsFrom s flips, k ≤ j := by
  induction flips with
  | nil => intro s k rest h; cases h
  | cons a tl ih =>
    intro s k rest h j hj
    cases tl with
    | nil => cases h
    | cons b rest2 =>
      rw [show transitionsFrom s (a :: b :: rest2)
          = (if a ≠ b then [s] else []) ++ transitionsFrom (s + 1) (b :: rest2) from rfl]
        at h hj
      by_cases hab : a = b
      · rw [if_neg (fun hc => hc hab), List.nil_append] at h hj
        exact ih (s + 1) k rest h j hj
      · rw [if_pos hab, List.singleton_append] at h hj
        cases h
        rcases List.mem_cons.mp hj with rfl | hj2
        · exact le_refl _
        · have := transitionsFrom_ge (b :: rest2) (s + 1) j hj2
          omega

theorem mem_changingFlipIdxs (flips : List Bool) (k : ℕ) :
    k ∈ changingFlipIdxs flips ↔ transitionAt flips k := by
  rw [changingFlipIdxs_eq, mem_transitionsFrom]
  constructor
  · rintro ⟨i, rfl, hlen, hne⟩
    refine ⟨by omega, by omega, ?_⟩
    have h1 : 1 + i - 1 = i := by omega
    have h2 : 1 + i = i + 1 := by omega
    rw [h1, h2]
    exact hne
  · rintro ⟨h1, h2, hne⟩
    refine ⟨k - 1, by omega, by omega, ?_⟩
    have e1 : k - 1 + 1 = k := by omega
    rw [e1]
    exact hne

/-- C5: Stack.terminate records a FLIPTIME field exactly when the flip column
has a transition: with no transition the field is absent; with transitions the
field equals the Julian date at the first (least-index) transition, which
covers both the exactly-one-transition case and the multiple-transition
case. -/
theorem stack_fliptime_correct (flips : List Bool) (jd : List ℚ) :
    ((∀ k, ¬ transitionAt flips k) → flipTime flips jd = none)
    ∧ ∀ k, transitionAt flips k → (∀ j, transitionAt flips j → k ≤ j) →
        flipTime flips jd = some (jd.getD k 0) := by
  constructor
  · intro hno
    unfold flipTime
    cases hc : changingFlipIdxs flips with
    | nil => rfl
    | cons k rest =>
      exact absurd ((mem_changingFlipIdxs flips k).mp (hc ▸ List.mem_cons_self k rest))
        (hno k)
  · intro k hk hmin
    unfold flipTime
    cases hc : changingFlipIdxs flips with
    | nil =>
      exfalso
      have hm := (mem_changingFlipIdxs flips k).mpr hk
      rw [hc] at hm
      cases hm
    | cons h t =>
      have hh : transitionAt flips h :=
        (mem_changingFlipIdxs flips h).mp (hc ▸ List.mem_cons_self h t)
      have hkh : k ≤ h := hmin h hh
      have hmem : k ∈ changingFlipIdxs flips := (mem_changingFlipIdxs flips k).mpr hk
      have hhk : h ≤ k := by
        rw [changingFlipIdxs_eq] at hc hmem
        exact transitionsFrom_head_min flips 1 h t hc k hmem
      have heq : h = k := le_antisymm hhk hkh
      rw [heq]

/-- Witness for C5: a column with no transition yields no field, and a column
with transitions at indices 1 and 2 records the Julian date at index 1. -/
theorem stack_fliptime_witness :
    flipTime [false, false] [1, 2] = none
    ∧ flipTime [false, true, false] [10, 20, 30]
      = some (([10, 20, 30] : List ℚ).getD 1 0) :=
  ⟨(stack_fliptime_correct [false, false] [1, 2]).1 (by
      rintro k ⟨h1, h2, h3⟩
      simp only [List.length_cons, List.length_nil] at h2
      interval_cases k
      · exact h3 rfl),
   (stack_fliptime_correct [false, true, false] [10, 20, 30]).2 1 (by decide)
     (fun j hj => hj.1)⟩

theorem map_getD_range (tl : List Plane) :
    (List.range tl.length).map (fun i => tl.getD i planeZero) = tl := by
  induction tl with
  | nil => rfl
  | cons p tl ih =>
    rw [List.length_cons, List.range_succ_eq_map, List.map_cons, List.map_map]
    have hc : ((fun i => (p :: tl).getD i planeZero) ∘ Nat.succ)
        = (fun i => tl.getD i planeZero) := by
      funext i
      simp
    rw [hc, ih]
    simp

theorem stackRunAll_inv (js : List ℕ) :
    ∀ (q : Plane) (tl : List Plane), (∀ j ∈ js, j ≠ 0) →
      stackRunAll ⟨q :: tl, some 0⟩ js
        = ⟨(fun x y => q x y
            + ((js.map (fun j => tl.getD (j - 1) planeZero x y)).sum)) :: tl, some 0⟩ := by
  induction js with
  | nil =>
    intro q tl _
    simp only [stackRunAll, List.foldl_nil, List.map_nil, List.sum_nil]
    refine congrArg (fun z => StackState.mk (z :: tl) (some 0)) ?_
    funext x y
    simp
  | cons j js ih =>
    intro q tl hj
    have hj0 : j ≠ 0 := hj j (List.mem_cons_self j js)
    obtain ⟨j0, rfl⟩ : ∃ j0, j = j0 + 1 := ⟨j - 1, by omega⟩
    rw [show stackRunAll ⟨q :: tl, some 0⟩ ((j0 + 1) :: js)
        = stackRunAll ⟨planeAdd q (tl.getD j0 planeZero) :: tl, some 0⟩ js from rfl,
      ih _ tl (fun x hx => hj x (List.mem_cons_of_mem _ hx))]
    refine congrArg (fun z => StackState.mk (z :: tl) (some 0)) ?_
    funext x y
    simp only [planeAdd, List.map_cons, List.sum_cons, Nat.add_sub_cancel]
    ring

/-- C3: after running Stack.run once per image (each image's data array being
a distinct heap object, in file order) and Stack.terminate once, the array
written out is the element-wise arithmetic mean of the input arrays. -/
theorem stack_mean_correct (ps : List Plane) (hne : ps ≠ []) :
    (stackTerminate (stackRunAll ⟨ps, none⟩ (List.range ps.length)) ps.length).2
      = some (meanPlane ps) := by
  cases ps with
  | nil => exact absurd rfl hne
  | cons p tl =>
    rw [List.length_cons, List.range_succ_eq_map]
    rw [show stackRunAll ⟨p :: tl, none⟩ (0 :: (List.range tl.length).map Nat.succ)
        = stackRunAll ⟨p :: tl, some 0⟩ ((List.range tl.length).map Nat.succ) from rfl]
    rw [stackRunAll_inv _ p tl (by
      intro j hj
      rcases List.mem_map.mp hj with ⟨i, _, rfl⟩
      exact Nat.succ_ne_zero i)]
    simp only [stackTerminate, List.getD_cons_zero]
    refine congrArg some ?_
    funext x y
    simp only [planeDiv, meanPlane, List.map_cons, List.sum_cons, List.length_cons,
      List.map_map]
    have hmaps : ((List.range tl.length).map
          ((fun j => tl.getD (j - 1) planeZero x y) ∘ Nat.succ))
        = ((List.range tl.length).map (fun i => tl.getD i planeZero)).map
            (fun pl => pl x y) := by
      rw [List.map_map]
      refine List.map_congr_left ?_
      intro i _
      simp
    rw [hmaps, map_getD_range]

/-- C9: Stack.run aliases the first image's data array into its accumulator,
so the later run call mutates that array in place (its pixel becomes the
running sum 3) and terminate's in-place division mutates it again (the pixel
becomes the mean 3/2), even though the first image's original pixel value was
1: the first image's data array is not left unchanged. -/
theorem stack_aliasing_mutates_first_image :
    (examplePlanes.getD 0 planeZero) 0 0 = 1
    ∧ ((stackRunAll ⟨examplePlanes, none⟩ [0, 1]).heap.getD 0 planeZero) 0 0 = 3
    ∧ ((stackTerminate (stackRunAll ⟨examplePlanes, none⟩ [0, 1]) 2).1.heap.getD 0
        planeZero) 0 0 = 3 / 2 := by
  refine ⟨rfl, ?_, ?_⟩ <;>
    norm_num [stackRunAll, stackRun, stackTerminate, examplePlanes, planeAdd, planeDiv,
      List.foldl]

/-- Witness for C3 on the two-image dataset with constant planes 1 and 2. -/
theorem stack_mean_correct_witness :
    (stackTerminate (stackRunAll ⟨examplePlanes, none⟩ (List.range examplePlanes.length))
        examplePlanes.length).2 = some (meanPlane examplePlanes) :=
  stack_mean_correct examplePlanes (by simp [examplePlanes])

/-- Witness for C7: with overwrite disabled, the terminate write to an
occupied destination fails with a destination conflict and leaves the
filesystem unchanged, while the write to a fresh destination succeeds, for the
Stack, StackStd and SavePhots write steps. -/
theorem terminate_overwrite_witness :
    (stackTerminateWrite ⟨[planeZero], some 0⟩ 1 "out.fits" false
        ⟨[("out.fits", planeZero)]⟩
        = (.error "DestinationConflict", ⟨[("out.fits", planeZero)]⟩)
      ∧ stackStdTerminateWrite planeZero "out.fits" false ⟨[("out.fits", planeZero)]⟩
        = (.error "DestinationConflict", ⟨[("out.fits", planeZero)]⟩))
    ∧ ((stackTerminateWrite ⟨[planeZero], some 0⟩ 1 "out.fits" false ⟨[]⟩).1 = .ok ()
      ∧ (stackStdTerminateWrite planeZero "out.fits" false ⟨[]⟩).1 = .ok ())
    ∧ savePhotsTerminateWrite fluxesFSA t0 [hdrA] "out.fits" false
        ⟨[("out.fits", (fluxesFSA, []))]⟩
        = (.error "DestinationConflict", ⟨[("out.fits", (fluxesFSA, []))]⟩)
    ∧ (savePhotsTerminateWrite fluxesFSA t0 [hdrA] "out.fits" false ⟨[]⟩).1 = .ok () :=
  ⟨(terminate_overwrite_policy ⟨[planeZero], some 0⟩ 0 rfl 1 "out.fits" false
      ⟨[("out.fits", planeZero)]⟩ fluxesFSA t0 [hdrA] ⟨_, rfl⟩ ⟨_, rfl⟩ planeZero
      ⟨[("out.fits", (fluxesFSA, []))]⟩).1 (by decide),
   (terminate_overwrite_policy ⟨[planeZero], some 0⟩ 0 rfl 1 "out.fits" false
      ⟨[]⟩ fluxesFSA t0 [hdrA] ⟨_, rfl⟩ ⟨_, rfl⟩ planeZero ⟨[]⟩).2.1 (by decide),
   (terminate_overwrite_policy ⟨[planeZero], some 0⟩ 0 rfl 1 "out.fits" false
      ⟨[("out.fits", planeZero)]⟩ fluxesFSA t0 [hdrA] ⟨_, rfl⟩ ⟨_, rfl⟩ planeZero
      ⟨[("out.fits", (fluxesFSA, []))]⟩).2.2.1 (by decide),
   (terminate_overwrite_policy ⟨[planeZero], some 0⟩ 0 rfl 1 "out.fits" false
      ⟨[]⟩ fluxesFSA t0 [hdrA] ⟨_, rfl⟩ ⟨_, rfl⟩ planeZero ⟨[]⟩).2.2.2 (by decide)⟩

end Prose
